import Mathlib

/-!
Verification of the job-shop scheduling model built by `solve_simple_jssp`
(src/or-tools/jssp_solver.py) and of the rhyming-scheme generator
(src/rhyme-helper/main.py).

The Python function builds a CP-SAT model from `jobs_data`:
interval variables with domain [0, horizon], a no-overlap constraint per
machine, within-job precedence constraints, and a makespan variable
constrained to the maximum of the last-task end times, which is minimized.
We embed the model-construction logic parametrically in the jobs list
(the code's loops are generic in `jobs_data`), so that each constraint the
code adds becomes a boolean check on an assignment of values to the model's
variables.
-/

namespace JSSP

/-- A task, exactly as in the Python data: a `(machine_id, processing_time)` pair. -/
abbrev Task := Int × Int

/-- The jobs list: each job is a list of tasks, in execution order. -/
abbrev JobsData := List (List Task)

/-- The instance hardcoded as `jobs_data` in `solve_simple_jssp`. -/
def jobs_data : JobsData :=
  [[(0, 3), (1, 2), (2, 2)],
   [(0, 2), (2, 1), (1, 4)],
   [(1, 4), (2, 3)]]

/-- Task of job `j` at position `k` (defaulting for out-of-range indices). -/
def taskAt (jobs : JobsData) (j k : Nat) : Task :=
  (jobs.getD j []).getD k (0, 0)

/-- `machine_id` of task `(j, k)`. -/
def machineOf (jobs : JobsData) (j k : Nat) : Int := (taskAt jobs j k).1

/-- `processing_time` of task `(j, k)`. -/
def durOf (jobs : JobsData) (j k : Nat) : Int := (taskAt jobs j k).2

/-- Number of tasks of job `j` (`len(jobs_data[job_id])`). -/
def numTasks (jobs : JobsData) (j : Nat) : Nat := (jobs.getD j []).length

/-- The running-maximum loop of the code: `max_machine_id` starts at 0 and is
updated whenever `task[0] > max_machine_id`. -/
def max_machine_id (jobs : JobsData) : Int :=
  jobs.foldl (fun acc job => job.foldl (fun a t => if t.1 > a then t.1 else a) acc) 0

/-- `num_machines = max_machine_id + 1`. -/
def num_machines (jobs : JobsData) : Int := max_machine_id jobs + 1

/-- `horizon = sum(task[1] for job in jobs_data for task in job)`. -/
def horizon (jobs : JobsData) : Int :=
  jobs.foldl (fun acc job => job.foldl (fun a t => a + t.2) acc) 0

/-- An assignment of concrete values to the model's variables: a start and an
end value for every `(job_id, task_index)`, and a value for the `makespan`
variable. -/
structure Assignment where
  start : Nat → Nat → Int
  endT : Nat → Nat → Int
  makespan : Int

/-- Check of the `NewIntervalVar` links: for every task, `end = start + duration`
(the duration is the fixed input constant). Ranges mirror the variable-creation
loops of the code. -/
def intervalsOk (jobs : JobsData) (a : Assignment) : Bool :=
  (List.range jobs.length).all fun j =>
    (List.range (numTasks jobs j)).all fun k =>
      a.endT j k == a.start j k + durOf jobs j k

/-- Check of the `NewIntVar(0, horizon)` domains of every start and end variable. -/
def domainsOk (jobs : JobsData) (a : Assignment) : Bool :=
  (List.range jobs.length).all fun j =>
    (List.range (numTasks jobs j)).all fun k =>
      decide (0 ≤ a.start j k) && decide (a.start j k ≤ horizon jobs) &&
      decide (0 ≤ a.endT j k) && decide (a.endT j k ≤ horizon jobs)

/-- Nonnegative start and end times: the part of the variable domains that does
not depend on the horizon. A schedule in the ordinary sense assigns
nonnegative times. -/
def nonnegOk (jobs : JobsData) (a : Assignment) : Bool :=
  (List.range jobs.length).all fun j =>
    (List.range (numTasks jobs j)).all fun k =>
      decide (0 ≤ a.start j k) && decide (0 ≤ a.endT j k)

/-- The `machine_to_intervals` dictionary of the code: the tasks assigned to
machine `m`, in the order the creation loop discovers them. -/
def machine_to_intervals (jobs : JobsData) (m : Int) : List (Nat × Nat) :=
  ((List.range jobs.length).map fun j =>
    ((List.range (numTasks jobs j)).filter fun k => machineOf jobs j k == m).map
      fun k => (j, k)).flatten

/-- CP-SAT `AddNoOverlap` semantics for one pair of intervals with fixed
durations: intervals of nonpositive size are ignored; otherwise one must end
before the other starts. -/
def intervalsDisjoint (jobs : JobsData) (a : Assignment) (p q : Nat × Nat) : Bool :=
  decide (durOf jobs p.1 p.2 ≤ 0) || decide (durOf jobs q.1 q.2 ≤ 0) ||
  decide (a.endT p.1 p.2 ≤ a.start q.1 q.2) || decide (a.endT q.1 q.2 ≤ a.start p.1 p.2)

/-- Pairwise check over a list. -/
def pairwiseOk (f : α → α → Bool) : List α → Bool
  | [] => true
  | x :: xs => xs.all (f x) && pairwiseOk f xs

/-- Check of the `AddNoOverlap` constraints: the code adds one per
`machine_id in range(num_machines)` over `machine_to_intervals[machine_id]`. -/
def noOverlapOk (jobs : JobsData) (a : Assignment) : Bool :=
  (List.range (num_machines jobs).toNat).all fun m =>
    pairwiseOk (intervalsDisjoint jobs a) (machine_to_intervals jobs (Int.ofNat m))

/-- Check of the precedence constraints: for every job and every
`task_index in range(len(job) - 1)`, `next_task_start >= prev_task_end`. -/
def precedenceOk (jobs : JobsData) (a : Assignment) : Bool :=
  (List.range jobs.length).all fun j =>
    (List.range (numTasks jobs j - 1)).all fun k =>
      decide (a.start j (k + 1) ≥ a.endT j k)

/-- The end variables of the last task of each job
(`last_task_end_times` in the code). -/
def lastEnds (jobs : JobsData) (a : Assignment) : List Int :=
  (List.range jobs.length).map fun j => a.endT j (numTasks jobs j - 1)

/-- Check of the makespan variable: domain `[0, horizon]` and
`AddMaxEquality(makespan, last_task_end_times)`. -/
def makespanOk (jobs : JobsData) (a : Assignment) : Bool :=
  decide (0 ≤ a.makespan) && decide (a.makespan ≤ horizon jobs) &&
  (lastEnds jobs a).contains a.makespan &&
  (lastEnds jobs a).all fun x => decide (x ≤ a.makespan)

/-- An assignment satisfies the CP-SAT model built by the code exactly when it
passes every constraint the code adds. A schedule returned as a solution is
such an assignment. -/
def satisfiesModel (jobs : JobsData) (a : Assignment) : Bool :=
  intervalsOk jobs a && domainsOk jobs a && noOverlapOk jobs a &&
  precedenceOk jobs a && makespanOk jobs a

/-- A schedule of the problem: nonnegative start times, `end = start + duration`,
within-job precedence, and per-machine no-overlap — the constraints of the
problem statement, with no horizon cap. -/
def validSchedule (jobs : JobsData) (a : Assignment) : Bool :=
  intervalsOk jobs a && nonnegOk jobs a && noOverlapOk jobs a && precedenceOk jobs a

/-- Maximum of a list of integers (0 for the empty list). -/
def listMax : List Int → Int
  | [] => 0
  | x :: xs => xs.foldl max x

/-- The makespan of a schedule: the maximum over jobs of the end time of the
job's last task. -/
def scheduleMakespan (jobs : JobsData) (a : Assignment) : Int :=
  listMax (lastEnds jobs a)

/-- `v` is the minimum makespan over all schedules of `jobs` that satisfy the
within-job precedence and per-machine no-overlap constraints. -/
def isOptimalMakespan (jobs : JobsData) (v : Int) : Prop :=
  (∃ a, validSchedule jobs a = true ∧ scheduleMakespan jobs a = v) ∧
  ∀ a, validSchedule jobs a = true → v ≤ scheduleMakespan jobs a

/-- Modelled from the spec: the external CP-SAT engine (`solver.Solve` /
`solver.ObjectiveValue`), which is not part of this repository. Per the spec,
the solver returns a feasible, makespan-optimal schedule and reports its
objective value: the reported optimal makespan is the minimum value of the
`makespan` variable over all assignments satisfying the model. -/
def solverReports (jobs : JobsData) (v : Int) : Prop :=
  (∃ a, satisfiesModel jobs a = true ∧ a.makespan = v) ∧
  ∀ a, satisfiesModel jobs a = true → v ≤ a.makespan

/-- Start times of a makespan-11 schedule of `jobs_data`. -/
def optStarts : List (List Int) := [[0, 4, 6], [3, 5, 6], [0, 8]]

/-- The corresponding assignment: ends are starts plus durations, makespan 11. -/
def optAssign : Assignment where
  start := fun j k => (optStarts.getD j []).getD k 0
  endT := fun j k => (optStarts.getD j []).getD k 0 + durOf jobs_data j k
  makespan := 11

/-- The `NewIntVar` calls of the variable-creation loop: for every task
`(j, k)`, a start variable and an end variable, each with bounds
`(0, horizon)`. -/
def all_task_vars (jobs : JobsData) : List ((Nat × Nat) × ((Int × Int) × (Int × Int))) :=
  ((List.range jobs.length).map fun j =>
    (List.range (numTasks jobs j)).map fun k =>
      ((j, k), ((0, horizon jobs), (0, horizon jobs)))).flatten

/-- The sum of all operation durations across all jobs, written as the spec
states it. -/
def totalDuration (jobs : JobsData) : Int :=
  (jobs.map fun job => (job.map Prod.snd).sum).sum

/-- All constraints of the hardcoded instance on its eight start times, given
that every start lies in the window forced by a makespan of at most 10:
the five precedence constraints and the seven machine disjunctions. Used to
show by exhaustive enumeration that no schedule of `jobs_data` has makespan
at most 10. -/
def feasibleJD (s00 s01 s02 s10 s11 s12 s20 s21 : Int) : Bool :=
  decide (s00 + 3 ≤ s01) && decide (s01 + 2 ≤ s02) &&
  decide (s10 + 2 ≤ s11) && decide (s11 + 1 ≤ s12) &&
  decide (s20 + 4 ≤ s21) &&
  (decide (s00 + 3 ≤ s10) || decide (s10 + 2 ≤ s00)) &&
  (decide (s01 + 2 ≤ s12) || decide (s12 + 4 ≤ s01)) &&
  (decide (s01 + 2 ≤ s20) || decide (s20 + 4 ≤ s01)) &&
  (decide (s12 + 4 ≤ s20) || decide (s20 + 4 ≤ s12)) &&
  (decide (s02 + 2 ≤ s11) || decide (s11 + 1 ≤ s02)) &&
  (decide (s02 + 2 ≤ s21) || decide (s21 + 3 ≤ s02)) &&
  (decide (s11 + 1 ≤ s21) || decide (s21 + 3 ≤ s11))

/-- The model-construction phase of `solve_simple_jssp`, parametric in the
jobs list. Variable creation, the no-overlap and precedence constraints, the
makespan variable and the objective never raise; the only fallible step is
collecting `all_tasks[(job_id, len(job) - 1)]` for each job, which is a
`KeyError` when a job is empty (the key `(job_id, -1)` was never created).
On success it returns the `(job_id, task_index)` keys of the last-task end
variables, in job order; no validation of durations or machine ids occurs. -/
def collectLastTaskKeys (jobs : JobsData) : List Nat → Except String (List (Nat × Nat))
  | [] => Except.ok []
  | j :: rest =>
    if numTasks jobs j ≠ 0 then
      match collectLastTaskKeys jobs rest with
      | Except.ok l => Except.ok ((j, numTasks jobs j - 1) :: l)
      | Except.error e => Except.error e
    else
      Except.error "KeyError"

/-- The model-construction phase applied to the whole jobs list: the loop over
`job_id in all_jobs`. -/
def model_construction (jobs : JobsData) : Except String (List (Nat × Nat)) :=
  collectLastTaskKeys jobs (List.range jobs.length)

/-- The machine ids referenced by the operations of the input, in order. -/
def all_machine_ids (jobs : JobsData) : List Int :=
  jobs.flatten.map Prod.fst

/-- Replace the element at index `i` by `f` of it (other positions unchanged). -/
def modifyAt (f : α → α) : Nat → List α → List α
  | _, [] => []
  | 0, x :: xs => f x :: xs
  | i + 1, x :: xs => x :: modifyAt f i xs

/-- The input problem with the duration of operation `(j, k)` increased by
`d`, all other data unchanged. -/
def bumpDuration (jobs : JobsData) (j k : Nat) (d : Int) : JobsData :=
  modifyAt (fun job => modifyAt (fun t => (t.1, t.2 + d)) k job) j jobs

/-- Total duration of one job. -/
def jobDur (job : List Task) : Int := (job.map Prod.snd).sum

/-- Total duration of the jobs before job `j`. -/
def prefixDur (jobs : JobsData) (j : Nat) : Int :=
  ((jobs.take j).map jobDur).sum

/-- Duration of the tasks of `job` before position `k`. -/
def taskPrefix (job : List Task) (k : Nat) : Int :=
  ((job.take k).map Prod.snd).sum

/-- The sequential schedule: operations run one after another, job by job, in
input order. Witnesses that every problem with nonnegative durations has a
schedule. -/
def seqStart (jobs : JobsData) (j k : Nat) : Int :=
  prefixDur jobs j + taskPrefix (jobs.getD j []) k

/-- The sequential schedule as an assignment. -/
def seqAssign (jobs : JobsData) : Assignment where
  start := seqStart jobs
  endT := fun j k => seqStart jobs j k + durOf jobs j k
  makespan := horizon jobs

/-- Durations of the tasks of a member job are nonnegative. -/
def nonnegDur (jobs : JobsData) : Prop := ∀ job ∈ jobs, ∀ t ∈ job, 0 ≤ (t : Task).2

end JSSP

namespace RhymeHelper

/-- Python list slicing `lst[:n]` for an `int` bound `n`: for nonnegative `n`
the first `min n (length)` elements, for negative `n` all but the last `-n`. -/
def pyTake (l : List α) (n : Int) : List α :=
  if 0 ≤ n then l.take n.toNat else l.take (l.length - (-n).toNat)

/-- The numbered lines built by the loop
`for i, rhyme in enumerate(rhymes, start=1): scheme += f"..."`. -/
def schemeLines : Nat → List String → String
  | _, [] => ""
  | i, r :: rs => toString i ++ ": " ++ r ++ "\n" ++ schemeLines (i + 1) rs

/-- `generate_rhyming_scheme(word, num_rhymes)` from src/rhyme-helper/main.py,
parametric in the external lookup `pronouncing.rhymes`. -/
def generate_rhyming_scheme (rhymesOf : String → List String)
    (word : String) (num_rhymes : Int) : String :=
  let rhymes := rhymesOf word
  if rhymes.isEmpty then
    "No rhymes found for the word '" ++ word ++ "'."
  else
    schemeLines 1 (pyTake rhymes num_rhymes)

/-- A scheme as the claim describes it: one line per rhyme, numbered
consecutively starting at 1, each line holding the rhyme at that position of
the list. -/
def numberedScheme (rhymes : List String) : String :=
  String.join ((List.range rhymes.length).map fun i =>
    toString (i + 1) ++ ": " ++ rhymes.getD i "" ++ "\n")

end RhymeHelper

namespace JSSP

/-! ### Extraction lemmas: reading individual constraints off the boolean checks -/

lemma all_range_extract {n : Nat} {p : Nat → Bool}
    (h : (List.range n).all p = true) {i : Nat} (hi : i < n) : p i = true :=
  List.all_eq_true.mp h i (List.mem_range.mpr hi)

lemma intervalsOk_extract {jobs : JobsData} {a : Assignment}
    (h : intervalsOk jobs a = true) {j k : Nat}
    (hj : j < jobs.length) (hk : k < numTasks jobs j) :
    a.endT j k = a.start j k + durOf jobs j k := by
  have h1 := all_range_extract (all_range_extract h hj) hk
  exact beq_iff_eq.mp h1

lemma domainsOk_extract {jobs : JobsData} {a : Assignment}
    (h : domainsOk jobs a = true) {j k : Nat}
    (hj : j < jobs.length) (hk : k < numTasks jobs j) :
    0 ≤ a.start j k ∧ a.start j k ≤ horizon jobs ∧
    0 ≤ a.endT j k ∧ a.endT j k ≤ horizon jobs := by
  have h1 := all_range_extract (all_range_extract h hj) hk
  simp only [Bool.and_eq_true, decide_eq_true_eq] at h1
  exact ⟨h1.1.1.1, h1.1.1.2, h1.1.2, h1.2⟩

lemma nonnegOk_extract {jobs : JobsData} {a : Assignment}
    (h : nonnegOk jobs a = true) {j k : Nat}
    (hj : j < jobs.length) (hk : k < numTasks jobs j) :
    0 ≤ a.start j k ∧ 0 ≤ a.endT j k := by
  have h1 := all_range_extract (all_range_extract h hj) hk
  simp only [Bool.and_eq_true, decide_eq_true_eq] at h1
  exact h1

lemma precedenceOk_extract {jobs : JobsData} {a : Assignment}
    (h : precedenceOk jobs a = true) {j k : Nat}
    (hj : j < jobs.length) (hk : k + 1 < numTasks jobs j) :
    a.endT j k ≤ a.start j (k + 1) := by
  have h1 := all_range_extract (all_range_extract h hj) (show k < numTasks jobs j - 1 by omega)
  simp only [ge_iff_le, decide_eq_true_eq] at h1
  exact h1

lemma mem_machine_to_intervals {jobs : JobsData} {m : Int} {j k : Nat} :
    (j, k) ∈ machine_to_intervals jobs m ↔
      j < jobs.length ∧ k < numTasks jobs j ∧ machineOf jobs j k = m := by
  unfold machine_to_intervals
  rw [List.mem_flatten]
  constructor
  · rintro ⟨l, hl, hmem⟩
    rw [List.mem_map] at hl
    obtain ⟨j', hj', rfl⟩ := hl
    rw [List.mem_map] at hmem
    obtain ⟨k', hk', hpair⟩ := hmem
    have hjj : j' = j ∧ k' = k := by
      constructor <;> [exact congrArg Prod.fst hpair; exact congrArg Prod.snd hpair]
    obtain ⟨rfl, rfl⟩ := hjj
    rw [List.mem_filter, List.mem_range] at hk'
    exact ⟨List.mem_range.mp hj', hk'.1, beq_iff_eq.mp hk'.2⟩
  · rintro ⟨hj, hk, hm⟩
    refine ⟨_, List.mem_map.mpr ⟨j, List.mem_range.mpr hj, rfl⟩, ?_⟩
    exact List.mem_map.mpr ⟨k, List.mem_filter.mpr
      ⟨List.mem_range.mpr hk, beq_iff_eq.mpr hm⟩, rfl⟩

lemma pairwiseOk_extract {f : α → α → Bool} :
    ∀ {l : List α}, pairwiseOk f l = true → ∀ {x y : α}, x ∈ l → y ∈ l → x ≠ y →
      f x y = true ∨ f y x = true := by
  intro l
  induction l with
  | nil => intro _ x y hx; cases hx
  | cons z t ih =>
    intro h x y hx hy hne
    simp only [pairwiseOk, Bool.and_eq_true, List.all_eq_true] at h
    rcases List.mem_cons.mp hx with hx1 | hx1
    · rcases List.mem_cons.mp hy with hy1 | hy1
      · exact absurd (hx1.trans hy1.symm) hne
      · exact Or.inl (hx1 ▸ h.1 y hy1)
    · rcases List.mem_cons.mp hy with hy1 | hy1
      · exact Or.inr (hy1 ▸ h.1 x hx1)
      · exact ih h.2 hx1 hy1 hne

lemma le_foldl_max : ∀ (l : List Int) (x : Int), x ≤ l.foldl max x := by
  intro l
  induction l with
  | nil => intro x; simp
  | cons y t ih =>
    intro x
    calc x ≤ max x y := le_max_left x y
    _ ≤ t.foldl max (max x y) := ih (max x y)
    _ = (y :: t).foldl max x := rfl

lemma mem_le_foldl_max : ∀ {l : List Int} {y : Int}, y ∈ l → ∀ (x : Int), y ≤ l.foldl max x := by
  intro l
  induction l with
  | nil => intro y hy; cases hy
  | cons z t ih =>
    intro y hy x
    rcases List.mem_cons.mp hy with rfl | hy
    · calc y ≤ max x y := le_max_right x y
      _ ≤ t.foldl max (max x y) := le_foldl_max t (max x y)
    · exact ih hy (max x z)

lemma foldl_max_mem : ∀ (l : List Int) (x : Int), l.foldl max x ∈ x :: l := by
  intro l
  induction l with
  | nil => intro x; simp
  | cons y t ih =>
    intro x
    have h := ih (max x y)
    rcases max_choice x y with hc | hc <;>
      rcases List.mem_cons.mp h with h1 | h1 <;>
      simp [List.foldl_cons, h1, hc] at * <;> simp_all

lemma mem_le_listMax {l : List Int} {y : Int} (hy : y ∈ l) : y ≤ listMax l := by
  cases l with
  | nil => cases hy
  | cons z t =>
    rcases List.mem_cons.mp hy with rfl | hy
    · exact le_foldl_max t y
    · exact mem_le_foldl_max hy z

lemma listMax_mem {l : List Int} (hl : l ≠ []) : listMax l ∈ l := by
  cases l with
  | nil => exact absurd rfl hl
  | cons z t => exact foldl_max_mem t z

lemma listMax_le {l : List Int} {c : Int} (hl : l ≠ []) (h : ∀ y ∈ l, y ≤ c) :
    listMax l ≤ c :=
  h _ (listMax_mem hl)

lemma listMax_eq_of_mem_of_le {l : List Int} {x : Int} (hx : x ∈ l)
    (h : ∀ y ∈ l, y ≤ x) : listMax l = x :=
  le_antisymm (listMax_le (List.ne_nil_of_mem hx) h) (mem_le_listMax hx)

/-! ### Bounds on the machine ids referenced by the input -/

lemma inner_fold_init_le (job : List Task) :
    ∀ a : Int, a ≤ job.foldl (fun a t => if t.1 > a then t.1 else a) a := by
  induction job with
  | nil => intro a; simp
  | cons t ts ih =>
    intro a
    refine le_trans ?_ (ih (if t.1 > a then t.1 else a))
    split <;> omega

lemma inner_fold_elem_le (job : List Task) :
    ∀ (a : Int) (t : Task), t ∈ job →
      t.1 ≤ job.foldl (fun a t => if t.1 > a then t.1 else a) a := by
  induction job with
  | nil => intro a t ht; cases ht
  | cons u ts ih =>
    intro a t ht
    rcases List.mem_cons.mp ht with ht1 | ht1
    · subst ht1
      refine le_trans ?_ (inner_fold_init_le ts (if t.1 > a then t.1 else a))
      split <;> omega
    · exact ih _ t ht1

lemma outer_fold_init_le (jobs : JobsData) :
    ∀ a : Int,
      a ≤ jobs.foldl (fun acc job => job.foldl (fun a t => if t.1 > a then t.1 else a) acc) a := by
  induction jobs with
  | nil => intro a; simp
  | cons job rest ih =>
    intro a
    exact le_trans (inner_fold_init_le job a) (ih _)

lemma max_machine_id_nonneg (jobs : JobsData) : 0 ≤ max_machine_id jobs :=
  outer_fold_init_le jobs 0

lemma outer_fold_elem_le :
    ∀ (jobs : JobsData) (a : Int) (job : List Task) (t : Task), job ∈ jobs → t ∈ job →
      t.1 ≤ jobs.foldl (fun acc job => job.foldl (fun a t => if t.1 > a then t.1 else a) acc) a := by
  intro jobs
  induction jobs with
  | nil => intro a job t hjob; cases hjob
  | cons job' rest ih =>
    intro a job t hjob ht
    rcases List.mem_cons.mp hjob with h1 | h1
    · subst h1
      exact le_trans (inner_fold_elem_le job a t ht) (outer_fold_init_le rest _)
    · exact ih _ job t h1 ht

lemma mem_le_max_machine_id {jobs : JobsData} {job : List Task} {t : Task}
    (hjob : job ∈ jobs) (ht : t ∈ job) : t.1 ≤ max_machine_id jobs :=
  outer_fold_elem_le jobs 0 job t hjob ht

lemma machineOf_le_max {jobs : JobsData} {j k : Nat}
    (hj : j < jobs.length) (hk : k < numTasks jobs j) :
    machineOf jobs j k ≤ max_machine_id jobs := by
  have hjob : jobs.getD j [] ∈ jobs := by
    rw [List.getD_eq_getElem jobs [] hj]
    exact List.getElem_mem hj
  have ht : (jobs.getD j []).getD k (0, 0) ∈ jobs.getD j [] := by
    rw [List.getD_eq_getElem _ _ hk]
    exact List.getElem_mem hk
  exact mem_le_max_machine_id hjob ht

lemma intervalsDisjoint_extract {jobs : JobsData} {a : Assignment} {p q : Nat × Nat}
    (h : intervalsDisjoint jobs a p q = true)
    (hd : 0 < durOf jobs p.1 p.2) (hd' : 0 < durOf jobs q.1 q.2) :
    a.endT p.1 p.2 ≤ a.start q.1 q.2 ∨ a.endT q.1 q.2 ≤ a.start p.1 p.2 := by
  simp only [intervalsDisjoint, Bool.or_eq_true, decide_eq_true_eq] at h
  rcases h with ((h1 | h1) | h1) | h1
  · omega
  · omega
  · exact Or.inl h1
  · exact Or.inr h1

lemma noOverlapOk_extract {jobs : JobsData} {a : Assignment}
    (h : noOverlapOk jobs a = true) {j k j' k' : Nat}
    (hj : j < jobs.length) (hk : k < numTasks jobs j)
    (hj' : j' < jobs.length) (hk' : k' < numTasks jobs j')
    (hne : (j, k) ≠ (j', k'))
    (hm : machineOf jobs j k = machineOf jobs j' k')
    (hm0 : 0 ≤ machineOf jobs j k)
    (hd : 0 < durOf jobs j k) (hd' : 0 < durOf jobs j' k') :
    a.endT j k ≤ a.start j' k' ∨ a.endT j' k' ≤ a.start j k := by
  have hle : machineOf jobs j k ≤ max_machine_id jobs := machineOf_le_max hj hk
  have hnum : num_machines jobs = max_machine_id jobs + 1 := rfl
  have hmn : (machineOf jobs j k).toNat < (num_machines jobs).toNat := by
    omega
  have hp := all_range_extract h hmn
  have hofnat : Int.ofNat (machineOf jobs j k).toNat = machineOf jobs j k :=
    Int.toNat_of_nonneg hm0
  rw [hofnat] at hp
  have hx : (j, k) ∈ machine_to_intervals jobs (machineOf jobs j k) :=
    mem_machine_to_intervals.mpr ⟨hj, hk, rfl⟩
  have hy : (j', k') ∈ machine_to_intervals jobs (machineOf jobs j k) :=
    mem_machine_to_intervals.mpr ⟨hj', hk', hm.symm⟩
  have hd2 := pairwiseOk_extract hp hx hy hne
  rcases hd2 with h2 | h2
  · exact intervalsDisjoint_extract h2 hd hd'
  · exact (intervalsDisjoint_extract h2 hd' hd).symm

lemma makespanOk_extract {jobs : JobsData} {a : Assignment}
    (h : makespanOk jobs a = true) :
    0 ≤ a.makespan ∧ a.makespan ≤ horizon jobs ∧
    a.makespan ∈ lastEnds jobs a ∧ ∀ x ∈ lastEnds jobs a, x ≤ a.makespan := by
  simp only [makespanOk, Bool.and_eq_true, decide_eq_true_eq, List.all_eq_true,
    List.contains_eq_any_beq, List.any_eq_true, beq_iff_eq] at h
  obtain ⟨⟨⟨h1, h2⟩, h3⟩, h4⟩ := h
  obtain ⟨x, hx, hxeq⟩ := h3
  exact ⟨h1, h2, hxeq ▸ hx, fun y hy => h4 y hy⟩

lemma satisfiesModel_parts {jobs : JobsData} {a : Assignment}
    (h : satisfiesModel jobs a = true) :
    intervalsOk jobs a = true ∧ domainsOk jobs a = true ∧ noOverlapOk jobs a = true ∧
    precedenceOk jobs a = true ∧ makespanOk jobs a = true := by
  simp only [satisfiesModel, Bool.and_eq_true] at h
  exact ⟨h.1.1.1.1, h.1.1.1.2, h.1.1.2, h.1.2, h.2⟩

lemma validSchedule_parts {jobs : JobsData} {a : Assignment}
    (h : validSchedule jobs a = true) :
    intervalsOk jobs a = true ∧ nonnegOk jobs a = true ∧ noOverlapOk jobs a = true ∧
    precedenceOk jobs a = true := by
  simp only [validSchedule, Bool.and_eq_true] at h
  exact ⟨h.1.1.1, h.1.1.2, h.1.2, h.2⟩

lemma nonnegOk_of_domainsOk {jobs : JobsData} {a : Assignment}
    (h : domainsOk jobs a = true) : nonnegOk jobs a = true := by
  unfold nonnegOk
  rw [List.all_eq_true]
  intro j hj
  rw [List.all_eq_true]
  intro k hk
  have := domainsOk_extract h (List.mem_range.mp hj) (List.mem_range.mp hk)
  simp only [Bool.and_eq_true, decide_eq_true_eq]
  exact ⟨this.1, this.2.2.1⟩

lemma validSchedule_of_satisfiesModel {jobs : JobsData} {a : Assignment}
    (h : satisfiesModel jobs a = true) : validSchedule jobs a = true := by
  obtain ⟨h1, h2, h3, h4, _⟩ := satisfiesModel_parts h
  simp only [validSchedule, Bool.and_eq_true]
  exact ⟨⟨⟨h1, nonnegOk_of_domainsOk h2⟩, h3⟩, h4⟩

lemma inner_fold_add (job : List Task) :
    ∀ a : Int, job.foldl (fun a t => a + t.2) a = a + (job.map Prod.snd).sum := by
  induction job with
  | nil => intro a; simp
  | cons t ts ih =>
    intro a
    simp only [List.foldl_cons, List.map_cons, List.sum_cons]
    rw [ih]
    ring

lemma outer_fold_add :
    ∀ (jobs : JobsData) (a : Int),
      jobs.foldl (fun acc job => job.foldl (fun a t => a + t.2) acc) a =
        a + totalDuration jobs := by
  intro jobs
  induction jobs with
  | nil => intro a; simp [totalDuration]
  | cons job rest ih =>
    intro a
    simp only [List.foldl_cons, totalDuration, List.map_cons, List.sum_cons]
    rw [ih, inner_fold_add]
    simp only [totalDuration]
    ring

lemma horizon_eq_totalDuration (jobs : JobsData) : horizon jobs = totalDuration jobs := by
  have h := outer_fold_add jobs 0
  simpa [horizon] using h

lemma reported_makespan_eq {jobs : JobsData} {a : Assignment}
    (h : satisfiesModel jobs a = true) : a.makespan = scheduleMakespan jobs a := by
  obtain ⟨_, _, _, _, hmk⟩ := satisfiesModel_parts h
  obtain ⟨_, _, hmem, hub⟩ := makespanOk_extract hmk
  exact (listMax_eq_of_mem_of_le hmem hub).symm

lemma mem_all_task_vars {jobs : JobsData} {j k : Nat}
    (hj : j < jobs.length) (hk : k < numTasks jobs j) :
    ((j, k), ((0, horizon jobs), (0, horizon jobs))) ∈ all_task_vars jobs := by
  unfold all_task_vars
  rw [List.mem_flatten]
  refine ⟨_, List.mem_map.mpr ⟨j, List.mem_range.mpr hj, rfl⟩, ?_⟩
  exact List.mem_map.mpr ⟨k, List.mem_range.mpr hk, rfl⟩

/-! ### Claims -/

/-- Claim C2: in any schedule returned as a solution, for every job `j` and
every pair of consecutive operations `(k, k+1)` of `j`, the end time of
operation `k` is at most the start time of operation `k+1`. -/
theorem C2_consecutive_precedence (jobs : JobsData) (a : Assignment)
    (h : satisfiesModel jobs a = true) (j k : Nat)
    (hj : j < jobs.length) (hk : k + 1 < numTasks jobs j) :
    a.endT j k ≤ a.start j (k + 1) :=
  precedenceOk_extract (satisfiesModel_parts h).2.2.2.1 hj hk

/-- Witness for C2 at the hardcoded instance and its optimal schedule. -/
theorem C2_consecutive_precedence_witness :
    satisfiesModel jobs_data optAssign = true ∧
    optAssign.endT 0 0 ≤ optAssign.start 0 1 :=
  ⟨by decide,
   C2_consecutive_precedence jobs_data optAssign (by decide) 0 0 (by decide) (by decide)⟩

/-- Claim C3: in any schedule returned as a solution, for every machine and
every two distinct operations assigned to it, the half-open execution
intervals `[start, end)` are disjoint: no time `t` lies in both. -/
theorem C3_machine_intervals_disjoint (jobs : JobsData) (a : Assignment)
    (h : satisfiesModel jobs a = true) (j k j' k' : Nat)
    (hj : j < jobs.length) (hk : k < numTasks jobs j)
    (hj' : j' < jobs.length) (hk' : k' < numTasks jobs j')
    (hne : (j, k) ≠ (j', k'))
    (hm0 : 0 ≤ machineOf jobs j k)
    (hm : machineOf jobs j k = machineOf jobs j' k') (t : Int) :
    ¬((a.start j k ≤ t ∧ t < a.endT j k) ∧
      (a.start j' k' ≤ t ∧ t < a.endT j' k')) := by
  obtain ⟨hiv, _, hno, _, _⟩ := satisfiesModel_parts h
  have he : a.endT j k = a.start j k + durOf jobs j k := intervalsOk_extract hiv hj hk
  have he' : a.endT j' k' = a.start j' k' + durOf jobs j' k' := intervalsOk_extract hiv hj' hk'
  by_cases hd : 0 < durOf jobs j k
  · by_cases hd' : 0 < durOf jobs j' k'
    · have hdisj := noOverlapOk_extract hno hj hk hj' hk' hne hm hm0 hd hd'
      omega
    · omega
  · omega

/-- Witness for C3 at the hardcoded instance: tasks `(0,1)` and `(2,0)` share
machine 1 in the optimal schedule. -/
theorem C3_machine_intervals_disjoint_witness :
    satisfiesModel jobs_data optAssign = true ∧
    ¬((optAssign.start 0 1 ≤ 4 ∧ (4 : Int) < optAssign.endT 0 1) ∧
      (optAssign.start 2 0 ≤ 4 ∧ (4 : Int) < optAssign.endT 2 0)) :=
  ⟨by decide,
   C3_machine_intervals_disjoint jobs_data optAssign (by decide) 0 1 2 0
     (by decide) (by decide) (by decide) (by decide) (by decide) (by decide)
     (by decide) 4⟩

/-- Claim C4: the reported makespan (the value of the minimized `makespan`
variable) equals the maximum over jobs of the end time of the job's last
operation, recomputed from the returned per-operation times. -/
theorem C4_reported_makespan_eq_recomputed (jobs : JobsData) (a : Assignment)
    (h : satisfiesModel jobs a = true) :
    a.makespan = scheduleMakespan jobs a :=
  reported_makespan_eq h

/-- Witness for C4 at the hardcoded instance. -/
theorem C4_reported_makespan_eq_recomputed_witness :
    satisfiesModel jobs_data optAssign = true ∧
    optAssign.makespan = scheduleMakespan jobs_data optAssign :=
  ⟨by decide, C4_reported_makespan_eq_recomputed jobs_data optAssign (by decide)⟩

/-- Claim C7: the horizon is the sum of all operation durations, every
operation's start and end variables are created with bounds `(0, horizon)`,
and in any solution `end = start + duration` with both values inside
`[0, horizon]`. -/
theorem C7_horizon_domains_and_interval_link (jobs : JobsData) (a : Assignment)
    (h : satisfiesModel jobs a = true) (j k : Nat)
    (hj : j < jobs.length) (hk : k < numTasks jobs j) :
    horizon jobs = totalDuration jobs ∧
    ((j, k), ((0, horizon jobs), (0, horizon jobs))) ∈ all_task_vars jobs ∧
    (0 ≤ a.start j k ∧ a.start j k ≤ horizon jobs) ∧
    (0 ≤ a.endT j k ∧ a.endT j k ≤ horizon jobs) ∧
    a.endT j k = a.start j k + durOf jobs j k := by
  obtain ⟨hiv, hdom, _, _, _⟩ := satisfiesModel_parts h
  obtain ⟨h1, h2, h3, h4⟩ := domainsOk_extract hdom hj hk
  exact ⟨horizon_eq_totalDuration jobs, mem_all_task_vars hj hk,
    ⟨h1, h2⟩, ⟨h3, h4⟩, intervalsOk_extract hiv hj hk⟩

/-- Witness for C7 at the hardcoded instance. -/
theorem C7_horizon_domains_and_interval_link_witness :
    satisfiesModel jobs_data optAssign = true ∧
    (horizon jobs_data = totalDuration jobs_data ∧
     ((0, 0), ((0, horizon jobs_data), (0, horizon jobs_data))) ∈ all_task_vars jobs_data ∧
     (0 ≤ optAssign.start 0 0 ∧ optAssign.start 0 0 ≤ horizon jobs_data) ∧
     (0 ≤ optAssign.endT 0 0 ∧ optAssign.endT 0 0 ≤ horizon jobs_data) ∧
     optAssign.endT 0 0 = optAssign.start 0 0 + durOf jobs_data 0 0) :=
  ⟨by decide,
   C7_horizon_domains_and_interval_link jobs_data optAssign (by decide) 0 0
     (by decide) (by decide)⟩



lemma step_eq_max (x y : Int) : (if y > x then y else x) = max x y := by
  rcases le_or_lt y x with h | h
  · simp [max_eq_left h, not_lt.mpr h]
  · simp [max_eq_right (le_of_lt h), h]

lemma foldl_step_eq_foldl_max : ∀ (l : List Int) (a : Int),
    l.foldl (fun x y => if y > x then y else x) a = l.foldl max a := by
  intro l
  induction l with
  | nil => intro a; rfl
  | cons x xs ih => intro a; simp only [List.foldl_cons, step_eq_max, ih]

lemma inner_fold_step_eq (job : List Task) :
    ∀ a : Int, job.foldl (fun a t => if t.1 > a then t.1 else a) a =
      job.foldl (fun x y => max x y.1) a := by
  induction job with
  | nil => intro a; rfl
  | cons t ts ih => intro a; simp only [List.foldl_cons, step_eq_max, ih]

lemma outer_fold_step_eq (jobs : JobsData) :
    ∀ a : Int,
      jobs.foldl (fun acc job => job.foldl (fun a t => if t.1 > a then t.1 else a) acc) a =
      jobs.foldl (fun acc job => job.foldl (fun x y => max x y.1) acc) a := by
  induction jobs with
  | nil => intro a; rfl
  | cons job rest ih => intro a; simp only [List.foldl_cons, inner_fold_step_eq, ih]

lemma max_machine_id_eq_foldl (jobs : JobsData) :
    max_machine_id jobs = (all_machine_ids jobs).foldl max 0 := by
  unfold max_machine_id all_machine_ids
  rw [List.foldl_map, List.foldl_flatten, outer_fold_step_eq]

lemma foldl_max_zero_eq_listMax {l : List Int} (hne : l ≠ [])
    (hnn : ∀ x ∈ l, 0 ≤ x) : l.foldl max 0 = listMax l := by
  cases l with
  | nil => exact absurd rfl hne
  | cons x xs =>
    have hx : max 0 x = x := max_eq_right (hnn x (List.mem_cons_self x xs))
    simp only [List.foldl_cons, hx, listMax]

lemma foldl_max_zero_of_nonpos : ∀ l : List Int, (∀ x ∈ l, x ≤ 0) → l.foldl max 0 = 0 := by
  intro l
  induction l with
  | nil => intro _; rfl
  | cons x xs ih =>
    intro h
    have hx : max 0 x = 0 := max_eq_left (h x (List.mem_cons_self x xs))
    simp only [List.foldl_cons, hx]
    exact ih fun y hy => h y (List.mem_cons_of_mem x hy)

lemma mem_all_machine_ids {jobs : JobsData} {x : Int} :
    x ∈ all_machine_ids jobs ↔ ∃ job ∈ jobs, ∃ t ∈ job, (t : Task).1 = x := by
  unfold all_machine_ids
  constructor
  · intro h
    obtain ⟨t, ht, rfl⟩ := List.mem_map.mp h
    obtain ⟨job, hjob, htj⟩ := List.mem_flatten.mp ht
    exact ⟨job, hjob, t, htj, rfl⟩
  · rintro ⟨job, hjob, t, htj, rfl⟩
    exact List.mem_map.mpr ⟨t, List.mem_flatten.mpr ⟨job, hjob, htj⟩, rfl⟩

/-- Claim C9: the running maximum is initialized to 0, so for any input in
which no operation references a machine id greater than 0 — including an input
with no jobs or no operations at all — the computed machine count is 1. -/
theorem C9_one_machine_when_no_positive_id (jobs : JobsData)
    (h : ∀ job ∈ jobs, ∀ t ∈ job, (t : Task).1 ≤ 0) :
    max_machine_id jobs = 0 ∧ num_machines jobs = 1 := by
  have hmax : max_machine_id jobs = 0 := by
    rw [max_machine_id_eq_foldl]
    apply foldl_max_zero_of_nonpos
    intro x hx
    obtain ⟨job, hjob, t, htj, rfl⟩ := mem_all_machine_ids.mp hx
    exact h job hjob t htj
  exact ⟨hmax, by unfold num_machines; omega⟩

/-- Witness for C9 at the empty input. -/
theorem C9_one_machine_when_no_positive_id_witness :
    max_machine_id [] = 0 ∧ num_machines [] = 1 :=
  C9_one_machine_when_no_positive_id [] (by intro job hjob; cases hjob)


/-! ### Sums of prefixes, and the sequential schedule -/

lemma sum_take_succ {l : List Int} {n : Nat} (h : n < l.length) :
    (l.take (n + 1)).sum = (l.take n).sum + l.getD n 0 := by
  rw [← List.take_concat_get' l n h, List.sum_append, List.getD_eq_getElem l 0 h]
  simp

lemma sum_take_le_sum {l : List Int} (hnn : ∀ x ∈ l, 0 ≤ x) (n : Nat) :
    (l.take n).sum ≤ l.sum := by
  conv_rhs => rw [← List.take_append_drop n l]
  rw [List.sum_append]
  have h0 : 0 ≤ (l.drop n).sum :=
    List.sum_nonneg fun x hx => hnn x (List.mem_of_mem_drop hx)
  omega

lemma sum_take_mono {l : List Int} (hnn : ∀ x ∈ l, 0 ≤ x) {m n : Nat} (hmn : m ≤ n) :
    (l.take m).sum ≤ (l.take n).sum := by
  have h := sum_take_le_sum (l := l.take n)
    (fun x hx => hnn x (List.mem_of_mem_take hx)) m
  rwa [List.take_take, min_eq_left hmn] at h

lemma sum_take_nonneg {l : List Int} (hnn : ∀ x ∈ l, 0 ≤ x) (n : Nat) :
    0 ≤ (l.take n).sum :=
  List.sum_nonneg fun x hx => hnn x (List.mem_of_mem_take hx)

lemma getD_mem_of_lt {α : Type} {l : List α} {i : Nat} (d : α) (h : i < l.length) :
    l.getD i d ∈ l := by
  rw [List.getD_eq_getElem l d h]
  exact List.getElem_mem h

lemma taskPrefix_eq (job : List Task) (k : Nat) :
    taskPrefix job k = ((job.map Prod.snd).take k).sum := by
  unfold taskPrefix
  rw [List.map_take]

lemma prefixDur_eq (jobs : JobsData) (j : Nat) :
    prefixDur jobs j = ((jobs.map jobDur).take j).sum := by
  unfold prefixDur
  rw [List.map_take]

lemma durOf_nonneg {jobs : JobsData} (hd : nonnegDur jobs) {j k : Nat}
    (hj : j < jobs.length) (hk : k < numTasks jobs j) : 0 ≤ durOf jobs j k :=
  hd _ (getD_mem_of_lt [] hj) _ (getD_mem_of_lt (0, 0) hk)

lemma job_durs_nonneg {jobs : JobsData} (hd : nonnegDur jobs) {j : Nat}
    (hj : j < jobs.length) : ∀ x ∈ (jobs.getD j []).map Prod.snd, 0 ≤ x := by
  intro x hx
  obtain ⟨t, ht, rfl⟩ := List.mem_map.mp hx
  exact hd _ (getD_mem_of_lt [] hj) t ht

lemma jobDur_nonneg {jobs : JobsData} (hd : nonnegDur jobs) {job : List Task}
    (hjob : job ∈ jobs) : 0 ≤ jobDur job :=
  List.sum_nonneg fun x hx => by
    obtain ⟨t, ht, rfl⟩ := List.mem_map.mp hx
    exact hd job hjob t ht

lemma jobDurs_nonneg {jobs : JobsData} (hd : nonnegDur jobs) :
    ∀ x ∈ jobs.map jobDur, 0 ≤ x := by
  intro x hx
  obtain ⟨job, hjob, rfl⟩ := List.mem_map.mp hx
  exact jobDur_nonneg hd hjob

lemma taskPrefix_succ {jobs : JobsData} {j k : Nat}
    (hk : k < numTasks jobs j) :
    taskPrefix (jobs.getD j []) (k + 1) =
      taskPrefix (jobs.getD j []) k + durOf jobs j k := by
  rw [taskPrefix_eq, taskPrefix_eq]
  have hlen : k < ((jobs.getD j []).map Prod.snd).length := by
    rw [List.length_map]; exact hk
  rw [sum_take_succ hlen]
  have hg : ((jobs.getD j []).map Prod.snd).getD k 0 = durOf jobs j k := by
    have := List.getD_map (jobs.getD j []) ((0, 0) : Task) (Prod.snd) (n := k)
    simpa [durOf, taskAt] using this
  rw [hg]

lemma prefixDur_succ {jobs : JobsData} {j : Nat} (hj : j < jobs.length) :
    prefixDur jobs (j + 1) = prefixDur jobs j + jobDur (jobs.getD j []) := by
  rw [prefixDur_eq, prefixDur_eq]
  have hlen : j < (jobs.map jobDur).length := by rw [List.length_map]; exact hj
  rw [sum_take_succ hlen]
  have hg : (jobs.map jobDur).getD j 0 = jobDur (jobs.getD j []) := by
    have := List.getD_map jobs ([] : List Task) jobDur (n := j)
    simpa [jobDur] using this
  rw [hg]

lemma seq_order {jobs : JobsData} (hd : nonnegDur jobs) {j k j' k' : Nat}
    (hj : j < jobs.length) (hk : k < numTasks jobs j)
    (hj' : j' < jobs.length) (hk' : k' < numTasks jobs j')
    (hlt : j < j' ∨ (j = j' ∧ k < k')) :
    seqStart jobs j k + durOf jobs j k ≤ seqStart jobs j' k' := by
  rcases hlt with hjj | ⟨rfl, hkk⟩
  · have h1 : taskPrefix (jobs.getD j []) k + durOf jobs j k ≤ jobDur (jobs.getD j []) := by
      rw [← taskPrefix_succ hk, taskPrefix_eq]
      exact sum_take_le_sum (job_durs_nonneg hd hj) (k + 1)
    have h2 : prefixDur jobs j + jobDur (jobs.getD j []) = prefixDur jobs (j + 1) :=
      (prefixDur_succ hj).symm
    have h3 : prefixDur jobs (j + 1) ≤ prefixDur jobs j' := by
      rw [prefixDur_eq, prefixDur_eq]
      exact sum_take_mono (jobDurs_nonneg hd) hjj
    have h4 : 0 ≤ taskPrefix (jobs.getD j' []) k' := by
      rw [taskPrefix_eq]
      exact sum_take_nonneg (job_durs_nonneg hd hj') k'
    unfold seqStart
    omega
  · have h1 : taskPrefix (jobs.getD j []) (k + 1) ≤ taskPrefix (jobs.getD j []) k' := by
      rw [taskPrefix_eq, taskPrefix_eq]
      exact sum_take_mono (job_durs_nonneg hd hj) hkk
    have h2 := taskPrefix_succ hk
    unfold seqStart
    omega

lemma seqStart_nonneg {jobs : JobsData} (hd : nonnegDur jobs) {j k : Nat}
    (hj : j < jobs.length) : 0 ≤ seqStart jobs j k := by
  have h1 : 0 ≤ prefixDur jobs j := by
    rw [prefixDur_eq]; exact sum_take_nonneg (jobDurs_nonneg hd) j
  have h2 : 0 ≤ taskPrefix (jobs.getD j []) k := by
    rw [taskPrefix_eq]; exact sum_take_nonneg (job_durs_nonneg hd hj) k
  unfold seqStart
  omega

lemma pairwiseOk_intro {α : Type} {f : α → α → Bool} :
    ∀ {l : List α}, l.Nodup → (∀ x ∈ l, ∀ y ∈ l, x ≠ y → f x y = true) →
      pairwiseOk f l = true := by
  intro l
  induction l with
  | nil => intro _ _; rfl
  | cons x xs ih =>
    intro hnd h
    simp only [pairwiseOk, Bool.and_eq_true, List.all_eq_true]
    constructor
    · intro y hy
      have hne : x ≠ y := fun he => (List.nodup_cons.mp hnd).1 (he ▸ hy)
      exact h x (List.mem_cons_self x xs) y (List.mem_cons_of_mem x hy) hne
    · exact ih (List.nodup_cons.mp hnd).2 fun u hu v hv =>
        h u (List.mem_cons_of_mem x hu) v (List.mem_cons_of_mem x hv)

lemma nodup_machine_to_intervals (jobs : JobsData) (m : Int) :
    (machine_to_intervals jobs m).Nodup := by
  unfold machine_to_intervals
  rw [List.nodup_flatten]
  constructor
  · intro s hs
    obtain ⟨j, _, rfl⟩ := List.mem_map.mp hs
    refine List.Nodup.map ?_ (List.Nodup.filter _ (List.nodup_range _))
    intro u v huv
    exact congrArg Prod.snd huv
  · rw [List.pairwise_map]
    refine List.Pairwise.imp ?_ (List.pairwise_lt_range jobs.length)
    intro j j' hjj p hp hp'
    obtain ⟨k, _, rfl⟩ := List.mem_map.mp hp
    obtain ⟨k', _, hpk⟩ := List.mem_map.mp hp'
    have : j' = j := congrArg Prod.fst hpk
    omega

lemma seq_validSchedule {jobs : JobsData} (hd : nonnegDur jobs) :
    validSchedule jobs (seqAssign jobs) = true := by
  have hiv : intervalsOk jobs (seqAssign jobs) = true := by
    unfold intervalsOk
    rw [List.all_eq_true]
    intro j _
    rw [List.all_eq_true]
    intro k _
    exact beq_iff_eq.mpr rfl
  have hnn : nonnegOk jobs (seqAssign jobs) = true := by
    unfold nonnegOk
    rw [List.all_eq_true]
    intro j hj
    rw [List.all_eq_true]
    intro k hk
    have hj' := List.mem_range.mp hj
    have hk' := List.mem_range.mp hk
    have h1 := seqStart_nonneg hd (k := k) hj'
    have h2 := durOf_nonneg hd hj' hk'
    simp only [seqAssign, Bool.and_eq_true, decide_eq_true_eq]
    exact ⟨h1, by omega⟩
  have hpr : precedenceOk jobs (seqAssign jobs) = true := by
    unfold precedenceOk
    rw [List.all_eq_true]
    intro j hj
    rw [List.all_eq_true]
    intro k hk
    have hj' := List.mem_range.mp hj
    have hk' := List.mem_range.mp hk
    have hk1 : k < numTasks jobs j := by omega
    have heq : seqStart jobs j k + durOf jobs j k = seqStart jobs j (k + 1) := by
      unfold seqStart
      rw [taskPrefix_succ hk1]
      omega
    simp only [seqAssign, ge_iff_le, decide_eq_true_eq]
    omega
  have hno : noOverlapOk jobs (seqAssign jobs) = true := by
    unfold noOverlapOk
    rw [List.all_eq_true]
    intro m _
    apply pairwiseOk_intro (nodup_machine_to_intervals jobs _)
    rintro ⟨j, k⟩ hx ⟨j', k'⟩ hy hne
    obtain ⟨hj, hk, _⟩ := mem_machine_to_intervals.mp hx
    obtain ⟨hj', hk', _⟩ := mem_machine_to_intervals.mp hy
    have htri : j < j' ∨ (j = j' ∧ k < k') ∨ j' < j ∨ (j' = j ∧ k' < k) := by
      rcases Nat.lt_trichotomy j j' with h | h | h
      · exact Or.inl h
      · subst h
        rcases Nat.lt_trichotomy k k' with h | h | h
        · exact Or.inr (Or.inl ⟨rfl, h⟩)
        · exact absurd (by rw [h]) hne
        · exact Or.inr (Or.inr (Or.inr ⟨rfl, h⟩))
      · exact Or.inr (Or.inr (Or.inl h))
    simp only [intervalsDisjoint, Bool.or_eq_true, decide_eq_true_eq, seqAssign]
    rcases htri with h | ⟨rfl, h⟩ | h | ⟨rfl, h⟩
    · exact Or.inl (Or.inr (seq_order hd hj hk hj' hk' (Or.inl h)))
    · exact Or.inl (Or.inr (seq_order hd hj hk hj' hk' (Or.inr ⟨rfl, h⟩)))
    · exact Or.inr (seq_order hd hj' hk' hj hk (Or.inl h))
    · exact Or.inr (seq_order hd hj' hk' hj hk (Or.inr ⟨rfl, h⟩))
  simp only [validSchedule, Bool.and_eq_true]
  exact ⟨⟨⟨hiv, hnn⟩, hno⟩, hpr⟩

/-- Claim C6: the number of machines computed by the model equals 1 plus the
maximum machine id referenced by any operation, and such a problem is still
solvable with that inferred machine count: a schedule satisfying all of the
model's scheduling constraints exists. -/
theorem C6_inferred_machine_count_and_solvable (jobs : JobsData)
    (hne : all_machine_ids jobs ≠ [])
    (hnn : ∀ m ∈ all_machine_ids jobs, 0 ≤ m)
    (hpos : ∀ job ∈ jobs, ∀ t ∈ job, 0 < (t : Task).2) :
    num_machines jobs = 1 + listMax (all_machine_ids jobs) ∧
    ∃ a, validSchedule jobs a = true := by
  constructor
  · have h1 := max_machine_id_eq_foldl jobs
    have h2 := foldl_max_zero_eq_listMax hne hnn
    unfold num_machines
    omega
  · exact ⟨seqAssign jobs, seq_validSchedule fun job hjob t ht => le_of_lt (hpos job hjob t ht)⟩

/-- Witness for C6 at a single-job problem referencing machine 5 only. -/
theorem C6_inferred_machine_count_and_solvable_witness :
    num_machines [[((5 : Int), (3 : Int))]] = 1 + listMax (all_machine_ids [[(5, 3)]]) ∧
    ∃ a, validSchedule [[((5 : Int), (3 : Int))]] a = true :=
  C6_inferred_machine_count_and_solvable [[(5, 3)]] (by decide)
    (by decide) (by decide)

/-! ### Model construction: the only failure is the empty-job KeyError -/

lemma collectLastTaskKeys_isOk (jobs : JobsData) :
    ∀ l : List Nat, (collectLastTaskKeys jobs l).isOk = true ↔ ∀ j ∈ l, numTasks jobs j ≠ 0 := by
  intro l
  induction l with
  | nil =>
    constructor
    · intro _ j hj; cases hj
    · intro _; rfl
  | cons j rest ih =>
    by_cases hj : numTasks jobs j ≠ 0
    · cases hrec : collectLastTaskKeys jobs rest with
      | ok v =>
        rw [hrec] at ih
        rw [show collectLastTaskKeys jobs (j :: rest) =
          Except.ok ((j, numTasks jobs j - 1) :: v) from by
            simp [collectLastTaskKeys, if_pos hj, hrec]]
        constructor
        · intro _ x hx
          rcases List.mem_cons.mp hx with rfl | hx
          · exact hj
          · exact ih.mp rfl x hx
        · intro _; rfl
      | error e =>
        rw [hrec] at ih
        rw [show collectLastTaskKeys jobs (j :: rest) = Except.error e from by
          simp [collectLastTaskKeys, if_pos hj, hrec]]
        constructor
        · intro hys; exact Bool.noConfusion hys
        · intro hall
          have hys := ih.mpr fun x hx => hall x (List.mem_cons_of_mem j hx)
          exact Bool.noConfusion hys
    · rw [show collectLastTaskKeys jobs (j :: rest) = Except.error "KeyError" from by
        simp [collectLastTaskKeys, hj]]
      constructor
      · intro hys; exact Bool.noConfusion hys
      · intro hall
        exact absurd (not_not.mp hj) (hall j (List.mem_cons_self j rest))

lemma model_construction_isOk (jobs : JobsData) :
    (model_construction jobs).isOk = true ↔ ∀ job ∈ jobs, job ≠ [] := by
  rw [model_construction, collectLastTaskKeys_isOk]
  constructor
  · intro h job hjob
    obtain ⟨i, hi, rfl⟩ := List.mem_iff_getElem.mp hjob
    have hne := h i (List.mem_range.mpr hi)
    unfold numTasks at hne
    rw [List.getD_eq_getElem jobs [] hi] at hne
    intro hnil
    rw [hnil] at hne
    exact hne rfl
  · intro h j hj
    have hjl := List.mem_range.mp hj
    have hmem : jobs.getD j [] ∈ jobs := getD_mem_of_lt [] hjl
    have := h _ hmem
    unfold numTasks
    intro hlen
    exact this (List.length_eq_zero.mp hlen)

/-- Counterexample to claim C5: the input `[[(-1, 0)]]` has a negative machine
id and a nonpositive duration, yet model construction succeeds (no
`InvalidProblem` is raised, and solving would proceed on the built model). -/
theorem C5_counterexample_no_validation :
    model_construction [[((-1 : Int), (0 : Int))]] = Except.ok [(0, 0)] := by
  rfl

/-- Amended claim C5: model construction performs no input validation — inputs
with nonpositive durations or negative machine ids are not rejected; it fails
before solving exactly when some job is empty, and then with an uncaught
`KeyError`, not an `InvalidProblem` error. -/
theorem C5_amended_only_empty_jobs_fail (jobs : JobsData) :
    (model_construction jobs).isOk = true ↔ ∀ job ∈ jobs, job ≠ [] :=
  model_construction_isOk jobs

/-- Witness for the amended C5: an input containing an empty job makes model
construction fail. -/
theorem C5_amended_only_empty_jobs_fail_witness :
    (model_construction [[((0 : Int), (1 : Int))], []]).isOk = false := by
  have h := C5_amended_only_empty_jobs_fail [[((0 : Int), (1 : Int))], []]
  cases hb : (model_construction [[((0 : Int), (1 : Int))], []]).isOk with
  | false => rfl
  | true =>
    have h2 := h.mp hb
    have h3 := h2 [] (by simp)
    exact absurd rfl h3

end JSSP

namespace RhymeHelper

lemma sfoldl_append : ∀ (l : List String) (x : String),
    l.foldl (fun r s => r ++ s) x = x ++ l.foldl (fun r s => r ++ s) "" := by
  intro l
  induction l with
  | nil => intro x; simp
  | cons a t ih =>
    intro x
    simp only [List.foldl_cons]
    rw [ih (x ++ a), ih ("" ++ a)]
    simp [String.append_assoc]

lemma sjoin_cons (a : String) (l : List String) :
    String.join (a :: l) = a ++ String.join l := by
  show (a :: l).foldl (fun r s => r ++ s) "" = a ++ l.foldl (fun r s => r ++ s) ""
  simp only [List.foldl_cons]
  rw [sfoldl_append]
  simp

lemma schemeLines_numbered : ∀ (l : List String) (s : Nat),
    schemeLines s l =
      String.join ((List.range l.length).map fun i =>
        toString (s + i) ++ ": " ++ l.getD i "" ++ "\n") := by
  intro l
  induction l with
  | nil => intro s; rfl
  | cons r rs ih =>
    intro s
    show toString s ++ ": " ++ r ++ "\n" ++ schemeLines (s + 1) rs = _
    rw [ih (s + 1), List.length_cons, List.range_succ_eq_map, List.map_cons, List.map_map]
    have hfun : ((fun i => toString (s + i) ++ ": " ++ (r :: rs).getD i "" ++ "\n") ∘
        (· + 1)) = fun i => toString (s + 1 + i) ++ ": " ++ rs.getD i "" ++ "\n" := by
      funext i
      show toString (s + (i + 1)) ++ ": " ++ rs.getD i "" ++ "\n" = _
      rw [show s + (i + 1) = s + 1 + i by omega]
    rw [hfun, sjoin_cons]
    simp

lemma schemeLines_one_head (r : String) (rs : List String) :
    (schemeLines 1 (r :: rs)).data.head? = some '1' := by
  show (toString 1 ++ ": " ++ r ++ "\n" ++ schemeLines 2 rs).data.head? = some '1'
  rw [show (toString 1 : String) = "1" by rfl]
  simp [List.head?_append]

lemma msg_head (word : String) :
    ("No rhymes found for the word '" ++ word ++ "'.").data.head? = some 'N' := by
  simp [List.head?_append]

/-- Claim C10: `generate_rhyming_scheme` returns the no-rhymes message exactly
when the lookup returns the empty list; otherwise, for `num_rhymes ≥ 1`, it
returns `min(num_rhymes, number of rhymes)` lines, numbered consecutively from
1, each holding one rhyme in lookup order. -/
theorem C10_scheme_or_message (rhymesOf : String → List String) (word : String)
    (n : Int) :
    (generate_rhyming_scheme rhymesOf word n =
        "No rhymes found for the word '" ++ word ++ "'." ↔ rhymesOf word = []) ∧
    (rhymesOf word ≠ [] → 1 ≤ n →
      generate_rhyming_scheme rhymesOf word n =
          numberedScheme (pyTake (rhymesOf word) n) ∧
        (pyTake (rhymesOf word) n).length = min n.toNat (rhymesOf word).length) := by
  constructor
  · constructor
    · intro heq
      cases hr : rhymesOf word with
      | nil => rfl
      | cons r rs =>
        exfalso
        rw [generate_rhyming_scheme, hr] at heq
        simp only [List.isEmpty_cons, if_neg (by decide : ¬false = true)] at heq
        cases hp : pyTake (r :: rs) n with
        | nil =>
          rw [hp] at heq
          have hd := congrArg (fun s => s.data.head?) heq
          simp only at hd
          rw [msg_head] at hd
          exact Option.noConfusion hd
        | cons r' rest =>
          rw [hp] at heq
          have hd := congrArg (fun s => s.data.head?) heq
          simp only at hd
          rw [schemeLines_one_head, msg_head] at hd
          have h1 := Option.some.inj hd
          exact absurd h1 (by decide)
    · intro hr
      rw [generate_rhyming_scheme, hr]
      rfl
  · intro hne hn
    cases hr : rhymesOf word with
    | nil => exact absurd hr hne
    | cons r rs =>
      constructor
      · rw [generate_rhyming_scheme, hr]
        simp only [List.isEmpty_cons, if_neg (by decide : ¬false = true)]
        rw [schemeLines_numbered, numberedScheme]
        have : ∀ i : Nat, 1 + i = i + 1 := fun i => by omega
        refine congrArg String.join (List.map_congr_left fun i _ => ?_)
        rw [this i]
      · rw [pyTake, if_pos (by omega : (0 : Int) ≤ n)]
        rw [List.length_take]

/-- Witness for C10: three rhymes, two requested. -/
theorem C10_scheme_or_message_witness :
    generate_rhyming_scheme (fun _ => ["bat", "hat", "mat"]) "cat" 2 =
      numberedScheme (pyTake ["bat", "hat", "mat"] 2) ∧
    (pyTake (["bat", "hat", "mat"] : List String) (2 : Int)).length =
      min (2 : Int).toNat (["bat", "hat", "mat"] : List String).length :=
  (C10_scheme_or_message (fun _ => ["bat", "hat", "mat"]) "cat" 2).2
    (by decide) (by decide)

end RhymeHelper

namespace JSSP

lemma length_modifyAt {α : Type} (f : α → α) : ∀ (i : Nat) (l : List α),
    (modifyAt f i l).length = l.length := by
  intro i l
  induction l generalizing i with
  | nil => cases i <;> rfl
  | cons x xs ih =>
    cases i with
    | zero => rfl
    | succ i => simp only [modifyAt, List.length_cons, ih]

lemma getD_modifyAt {α : Type} (f : α → α) (d : α) : ∀ (i n : Nat) (l : List α),
    (modifyAt f i l).getD n d =
      if n = i ∧ i < l.length then f (l.getD n d) else l.getD n d := by
  intro i n l
  induction l generalizing i n with
  | nil => cases i <;> simp [modifyAt]
  | cons x xs ih =>
    cases i with
    | zero =>
      cases n with
      | zero => simp [modifyAt]
      | succ n => simp [modifyAt]
    | succ i =>
      cases n with
      | zero => simp [modifyAt]
      | succ n =>
        show (modifyAt f i xs).getD n d = _
        rw [ih i n]
        by_cases h : n = i ∧ i < xs.length
        · rw [if_pos h, if_pos (by simp only [List.length_cons]; omega)]
          rfl
        · rw [if_neg h, if_neg (by simp only [List.length_cons]; omega)]
          rfl

lemma bump_length (jobs : JobsData) (j k : Nat) (d : Int) :
    (bumpDuration jobs j k d).length = jobs.length :=
  length_modifyAt _ j jobs

lemma bump_numTasks (jobs : JobsData) (j k : Nat) (d : Int) (p : Nat) :
    numTasks (bumpDuration jobs j k d) p = numTasks jobs p := by
  unfold numTasks bumpDuration
  rw [getD_modifyAt]
  by_cases h : p = j ∧ j < jobs.length
  · rw [if_pos h, length_modifyAt]
  · rw [if_neg h]

lemma bump_taskAt (jobs : JobsData) (j k : Nat) (d : Int) (p q : Nat) :
    taskAt (bumpDuration jobs j k d) p q =
      if p = j ∧ j < jobs.length ∧ q = k ∧ k < numTasks jobs j then
        ((taskAt jobs p q).1, (taskAt jobs p q).2 + d)
      else taskAt jobs p q := by
  unfold taskAt bumpDuration numTasks
  rw [getD_modifyAt]
  by_cases h : p = j ∧ j < jobs.length
  · obtain ⟨rfl, hlt⟩ := h
    rw [if_pos ⟨rfl, hlt⟩, getD_modifyAt]
    by_cases h2 : q = k ∧ k < (jobs.getD p []).length
    · rw [if_pos h2, if_pos ⟨rfl, hlt, h2⟩]
    · rw [if_neg h2, if_neg (fun hc => h2 ⟨hc.2.2.1, hc.2.2.2⟩)]
  · rw [if_neg h, if_neg (fun hc => h ⟨hc.1, hc.2.1⟩)]

lemma bump_machineOf (jobs : JobsData) (j k : Nat) (d : Int) (p q : Nat) :
    machineOf (bumpDuration jobs j k d) p q = machineOf jobs p q := by
  unfold machineOf
  rw [bump_taskAt]
  by_cases h : p = j ∧ j < jobs.length ∧ q = k ∧ k < numTasks jobs j
  · rw [if_pos h]
  · rw [if_neg h]

lemma bump_durOf_ge (jobs : JobsData) (j k : Nat) {d : Int} (hd : 0 ≤ d) (p q : Nat) :
    durOf jobs p q ≤ durOf (bumpDuration jobs j k d) p q := by
  unfold durOf
  rw [bump_taskAt]
  by_cases h : p = j ∧ j < jobs.length ∧ q = k ∧ k < numTasks jobs j
  · rw [if_pos h]; simp; omega
  · rw [if_neg h]

lemma durOf_pos {jobs : JobsData} (hpos : ∀ job ∈ jobs, ∀ t ∈ job, 0 < (t : Task).2)
    {p q : Nat} (hp : p < jobs.length) (hq : q < numTasks jobs p) : 0 < durOf jobs p q :=
  hpos _ (getD_mem_of_lt [] hp) _ (getD_mem_of_lt (0, 0) hq)

lemma bump_durOf_pos {jobs : JobsData} {j k : Nat} {d : Int}
    (hpos : ∀ job ∈ jobs, ∀ t ∈ job, 0 < (t : Task).2) (hd : 0 ≤ d)
    {p q : Nat} (hp : p < jobs.length) (hq : q < numTasks jobs p) :
    0 < durOf (bumpDuration jobs j k d) p q :=
  lt_of_lt_of_le (durOf_pos hpos hp hq) (bump_durOf_ge jobs j k hd p q)

lemma listMax_map_le {α : Type} {l : List α} {f g : α → Int}
    (h : ∀ x ∈ l, f x ≤ g x) : listMax (l.map f) ≤ listMax (l.map g) := by
  cases l with
  | nil => simp [listMax]
  | cons x xs =>
    have hne : (x :: xs).map f ≠ [] := by simp
    obtain ⟨y, hy, hyeq⟩ := List.mem_map.mp (listMax_mem hne)
    rw [← hyeq]
    exact le_trans (h y hy) (mem_le_listMax (List.mem_map.mpr ⟨y, hy, rfl⟩))

/-- Claim C8: for a valid problem instance (nonempty jobs, positive durations),
increasing the duration of any single operation by any positive amount does not
decrease the optimal makespan. -/
theorem C8_duration_increase_monotone (jobs : JobsData) (j k : Nat) (d : Int)
    (hj : j < jobs.length) (hk : k < numTasks jobs j) (hdpos : 0 < d)
    (hnonempty : ∀ job ∈ jobs, job ≠ [])
    (hpos : ∀ job ∈ jobs, ∀ t ∈ job, 0 < (t : Task).2)
    (v v' : Int) (hv : isOptimalMakespan jobs v)
    (hv' : isOptimalMakespan (bumpDuration jobs j k d) v') :
    v ≤ v' := by
  obtain ⟨⟨a, ha, hm⟩, _⟩ := hv'
  obtain ⟨hiv, hnn, hno, hpr⟩ := validSchedule_parts ha
  have hd0 : (0 : Int) ≤ d := le_of_lt hdpos
  have hlen := bump_length jobs j k d
  have hnt := bump_numTasks jobs j k d
  set b : Assignment :=
    { start := a.start, endT := fun p q => a.start p q + durOf jobs p q,
      makespan := a.makespan } with hb
  have hivb : intervalsOk jobs b = true := by
    unfold intervalsOk
    rw [List.all_eq_true]
    intro p _
    rw [List.all_eq_true]
    intro q _
    exact beq_iff_eq.mpr rfl
  have hnnb : nonnegOk jobs b = true := by
    unfold nonnegOk
    rw [List.all_eq_true]
    intro p hp
    rw [List.all_eq_true]
    intro q hq
    have hp' := List.mem_range.mp hp
    have hq' := List.mem_range.mp hq
    have h1 := (nonnegOk_extract (j := p) (k := q) hnn (by rw [hlen]; exact hp') (by rw [hnt]; exact hq')).1
    have h2 := durOf_pos hpos hp' hq'
    simp only [Bool.and_eq_true, decide_eq_true_eq]
    refine ⟨h1, ?_⟩
    have hbe : b.endT p q = a.start p q + durOf jobs p q := rfl
    omega
  have hprb : precedenceOk jobs b = true := by
    unfold precedenceOk
    rw [List.all_eq_true]
    intro p hp
    rw [List.all_eq_true]
    intro q hq
    have hp' := List.mem_range.mp hp
    have hq' := List.mem_range.mp hq
    have hq1 : q + 1 < numTasks (bumpDuration jobs j k d) p := by rw [hnt]; omega
    have hq0 : q < numTasks (bumpDuration jobs j k d) p := by rw [hnt]; omega
    have he := intervalsOk_extract (j := p) (k := q) hiv (by rw [hlen]; exact hp') hq0
    have hple := precedenceOk_extract (j := p) (k := q) hpr (by rw [hlen]; exact hp') hq1
    have hge := bump_durOf_ge jobs j k hd0 p q
    simp only [ge_iff_le, decide_eq_true_eq]
    show b.endT p q ≤ b.start p (q + 1)
    have hbe : b.endT p q = a.start p q + durOf jobs p q := rfl
    have hbs : b.start p (q + 1) = a.start p (q + 1) := rfl
    omega
  have hnob : noOverlapOk jobs b = true := by
    unfold noOverlapOk
    rw [List.all_eq_true]
    intro m _
    apply pairwiseOk_intro (nodup_machine_to_intervals jobs _)
    rintro ⟨p, q⟩ hx ⟨p', q'⟩ hy hne
    obtain ⟨hp, hq, hmx⟩ := mem_machine_to_intervals.mp hx
    obtain ⟨hp', hq', hmy⟩ := mem_machine_to_intervals.mp hy
    have hd1 : 0 < durOf jobs p q := durOf_pos hpos hp hq
    have hd2 : 0 < durOf jobs p' q' := durOf_pos hpos hp' hq'
    have hdisj := @noOverlapOk_extract (bumpDuration jobs j k d) a hno p q p' q'
      (by rw [hlen]; exact hp) (by rw [hnt]; exact hq)
      (by rw [hlen]; exact hp') (by rw [hnt]; exact hq')
      hne (by rw [bump_machineOf, bump_machineOf, hmx, hmy])
      (by rw [bump_machineOf, hmx]; exact Int.natCast_nonneg m)
      (bump_durOf_pos hpos hd0 hp hq) (bump_durOf_pos hpos hd0 hp' hq')
    have he1 := intervalsOk_extract (j := p) (k := q) hiv (by rw [hlen]; exact hp)
      (by rw [hnt]; exact hq)
    have he2 := intervalsOk_extract (j := p') (k := q') hiv (by rw [hlen]; exact hp')
      (by rw [hnt]; exact hq')
    have hge1 := bump_durOf_ge jobs j k hd0 p q
    have hge2 := bump_durOf_ge jobs j k hd0 p' q'
    simp only [intervalsDisjoint, Bool.or_eq_true, decide_eq_true_eq]
    rcases hdisj with h | h
    · exact Or.inl (Or.inr (by omega))
    · exact Or.inr (by omega)
  have hvb : validSchedule jobs b = true := by
    simp only [validSchedule, Bool.and_eq_true]
    exact ⟨⟨⟨hivb, hnnb⟩, hnob⟩, hprb⟩
  have hle1 : v ≤ scheduleMakespan jobs b := hv.2 b hvb
  have hle2 : scheduleMakespan jobs b ≤ scheduleMakespan (bumpDuration jobs j k d) a := by
    unfold scheduleMakespan lastEnds
    rw [hlen]
    apply listMax_map_le
    intro i hi
    have hi' := List.mem_range.mp hi
    have hnei := hnonempty _ (getD_mem_of_lt [] hi')
    have hpos0 : 0 < numTasks jobs i := by
      unfold numTasks
      cases hcase : jobs.getD i [] with
      | nil => exact absurd hcase hnei
      | cons t ts => simp
    have hlast : numTasks jobs i - 1 < numTasks jobs i := by omega
    have he := intervalsOk_extract (j := i) (k := numTasks jobs i - 1) hiv
      (by rw [hlen]; exact hi') (by rw [hnt]; exact hlast)
    have hge := bump_durOf_ge jobs j k hd0 i (numTasks jobs i - 1)
    rw [hnt]
    have hbe : b.endT i (numTasks jobs i - 1) =
      a.start i (numTasks jobs i - 1) + durOf jobs i (numTasks jobs i - 1) := rfl
    omega
  omega

lemma opt_single_one : isOptimalMakespan [[((0 : Int), (1 : Int))]] 1 := by
  constructor
  · exact ⟨⟨fun _ _ => 0, fun p q => 0 + durOf [[((0 : Int), (1 : Int))]] p q, 1⟩,
      by decide, by decide⟩
  · intro a ha
    obtain ⟨hiv, hnn, _, _⟩ := validSchedule_parts ha
    have he : a.endT 0 0 = a.start 0 0 + 1 := intervalsOk_extract hiv (by decide) (by decide)
    have hn := (@nonnegOk_extract [[((0 : Int), (1 : Int))]] a hnn 0 0
      (by decide) (by decide)).1
    have hms : scheduleMakespan [[((0 : Int), (1 : Int))]] a = a.endT 0 0 := rfl
    rw [hms]
    omega

lemma opt_single_two : isOptimalMakespan [[((0 : Int), (2 : Int))]] 2 := by
  constructor
  · exact ⟨⟨fun _ _ => 0, fun p q => 0 + durOf [[((0 : Int), (2 : Int))]] p q, 2⟩,
      by decide, by decide⟩
  · intro a ha
    obtain ⟨hiv, hnn, _, _⟩ := validSchedule_parts ha
    have he : a.endT 0 0 = a.start 0 0 + 2 := intervalsOk_extract hiv (by decide) (by decide)
    have hn := (@nonnegOk_extract [[((0 : Int), (2 : Int))]] a hnn 0 0
      (by decide) (by decide)).1
    have hms : scheduleMakespan [[((0 : Int), (2 : Int))]] a = a.endT 0 0 := rfl
    rw [hms]
    omega

/-- Witness for C8: bumping the single operation of `[[(0, 1)]]` by 1 raises
the optimal makespan from 1 to 2. -/
theorem C8_duration_increase_monotone_witness :
    isOptimalMakespan [[((0 : Int), (1 : Int))]] 1 ∧
    isOptimalMakespan (bumpDuration [[((0 : Int), (1 : Int))]] 0 0 1) 2 ∧
    (1 : Int) ≤ 2 :=
  have h2 : isOptimalMakespan (bumpDuration [[((0 : Int), (1 : Int))]] 0 0 1) 2 :=
    opt_single_two
  ⟨opt_single_one, h2,
    C8_duration_increase_monotone [[((0 : Int), (1 : Int))]] 0 0 1 (by decide) (by decide)
      (by decide) (by decide) (by decide) 1 2 opt_single_one h2⟩

set_option maxHeartbeats 4000000 in
lemma no_schedule_within_ten : ∀ (a b c d e f g h : Fin 4),
    feasibleJD (0 + a.val) (3 + b.val) (5 + c.val) (0 + d.val)
      (2 + e.val) (3 + f.val) (0 + g.val) (4 + h.val) = false := by
  decide

lemma makespan_unfold (a : Assignment) :
    scheduleMakespan jobs_data a = max (max (a.endT 0 2) (a.endT 1 2)) (a.endT 2 1) := rfl

lemma lower_bound (a : Assignment) (h : validSchedule jobs_data a = true) :
    11 ≤ scheduleMakespan jobs_data a := by
  obtain ⟨hiv, hnn, hno, hpr⟩ := validSchedule_parts h
  have e00 : a.endT 0 0 = a.start 0 0 + 3 := intervalsOk_extract hiv (by decide) (by decide)
  have e01 : a.endT 0 1 = a.start 0 1 + 2 := intervalsOk_extract hiv (by decide) (by decide)
  have e02 : a.endT 0 2 = a.start 0 2 + 2 := intervalsOk_extract hiv (by decide) (by decide)
  have e10 : a.endT 1 0 = a.start 1 0 + 2 := intervalsOk_extract hiv (by decide) (by decide)
  have e11 : a.endT 1 1 = a.start 1 1 + 1 := intervalsOk_extract hiv (by decide) (by decide)
  have e12 : a.endT 1 2 = a.start 1 2 + 4 := intervalsOk_extract hiv (by decide) (by decide)
  have e20 : a.endT 2 0 = a.start 2 0 + 4 := intervalsOk_extract hiv (by decide) (by decide)
  have e21 : a.endT 2 1 = a.start 2 1 + 3 := intervalsOk_extract hiv (by decide) (by decide)
  have n00 := (nonnegOk_extract hnn (show 0 < jobs_data.length by decide) (show 0 < numTasks jobs_data 0 by decide)).1
  have n10 := (nonnegOk_extract hnn (show 1 < jobs_data.length by decide) (show 0 < numTasks jobs_data 1 by decide)).1
  have n20 := (nonnegOk_extract hnn (show 2 < jobs_data.length by decide) (show 0 < numTasks jobs_data 2 by decide)).1
  have p00 : a.endT 0 0 ≤ a.start 0 1 := precedenceOk_extract hpr (by decide) (by decide)
  have p01 : a.endT 0 1 ≤ a.start 0 2 := precedenceOk_extract hpr (by decide) (by decide)
  have p10 : a.endT 1 0 ≤ a.start 1 1 := precedenceOk_extract hpr (by decide) (by decide)
  have p11 : a.endT 1 1 ≤ a.start 1 2 := precedenceOk_extract hpr (by decide) (by decide)
  have p20 : a.endT 2 0 ≤ a.start 2 1 := precedenceOk_extract hpr (by decide) (by decide)
  have d0 : a.endT 0 0 ≤ a.start 1 0 ∨ a.endT 1 0 ≤ a.start 0 0 :=
    noOverlapOk_extract hno (by decide) (by decide) (by decide) (by decide)
      (by decide) (by decide) (by decide) (by decide) (by decide)
  have d1 : a.endT 0 1 ≤ a.start 1 2 ∨ a.endT 1 2 ≤ a.start 0 1 :=
    noOverlapOk_extract hno (by decide) (by decide) (by decide) (by decide)
      (by decide) (by decide) (by decide) (by decide) (by decide)
  have d2 : a.endT 0 1 ≤ a.start 2 0 ∨ a.endT 2 0 ≤ a.start 0 1 :=
    noOverlapOk_extract hno (by decide) (by decide) (by decide) (by decide)
      (by decide) (by decide) (by decide) (by decide) (by decide)
  have d3 : a.endT 1 2 ≤ a.start 2 0 ∨ a.endT 2 0 ≤ a.start 1 2 :=
    noOverlapOk_extract hno (by decide) (by decide) (by decide) (by decide)
      (by decide) (by decide) (by decide) (by decide) (by decide)
  have d4 : a.endT 0 2 ≤ a.start 1 1 ∨ a.endT 1 1 ≤ a.start 0 2 :=
    noOverlapOk_extract hno (by decide) (by decide) (by decide) (by decide)
      (by decide) (by decide) (by decide) (by decide) (by decide)
  have d5 : a.endT 0 2 ≤ a.start 2 1 ∨ a.endT 2 1 ≤ a.start 0 2 :=
    noOverlapOk_extract hno (by decide) (by decide) (by decide) (by decide)
      (by decide) (by decide) (by decide) (by decide) (by decide)
  have d6 : a.endT 1 1 ≤ a.start 2 1 ∨ a.endT 2 1 ≤ a.start 1 1 :=
    noOverlapOk_extract hno (by decide) (by decide) (by decide) (by decide)
      (by decide) (by decide) (by decide) (by decide) (by decide)
  rw [makespan_unfold]
  by_contra hlt
  push_neg at hlt
  have hm02 : a.endT 0 2 ≤ 10 := by omega
  have hm12 : a.endT 1 2 ≤ 10 := by omega
  have hm21 : a.endT 2 1 ≤ 10 := by omega
  have w00 : 0 ≤ a.start 0 0 ∧ a.start 0 0 ≤ 3 := by omega
  have w01 : 3 ≤ a.start 0 1 ∧ a.start 0 1 ≤ 6 := by omega
  have w02 : 5 ≤ a.start 0 2 ∧ a.start 0 2 ≤ 8 := by omega
  have w10 : 0 ≤ a.start 1 0 ∧ a.start 1 0 ≤ 3 := by omega
  have w11 : 2 ≤ a.start 1 1 ∧ a.start 1 1 ≤ 5 := by omega
  have w12 : 3 ≤ a.start 1 2 ∧ a.start 1 2 ≤ 6 := by omega
  have w20 : 0 ≤ a.start 2 0 ∧ a.start 2 0 ≤ 3 := by omega
  have w21 : 4 ≤ a.start 2 1 ∧ a.start 2 1 ≤ 7 := by omega
  have hfeas : feasibleJD (a.start 0 0) (a.start 0 1) (a.start 0 2) (a.start 1 0)
      (a.start 1 1) (a.start 1 2) (a.start 2 0) (a.start 2 1) = true := by
    simp only [feasibleJD, Bool.and_eq_true, Bool.or_eq_true, decide_eq_true_eq]
    omega
  have hfalse : feasibleJD (a.start 0 0) (a.start 0 1) (a.start 0 2) (a.start 1 0)
      (a.start 1 1) (a.start 1 2) (a.start 2 0) (a.start 2 1) = false := by
    have he := no_schedule_within_ten ⟨(a.start 0 0 - 0).toNat, by omega⟩ ⟨(a.start 0 1 - 3).toNat, by omega⟩
      ⟨(a.start 0 2 - 5).toNat, by omega⟩ ⟨(a.start 1 0 - 0).toNat, by omega⟩
      ⟨(a.start 1 1 - 2).toNat, by omega⟩ ⟨(a.start 1 2 - 3).toNat, by omega⟩
      ⟨(a.start 2 0 - 0).toNat, by omega⟩ ⟨(a.start 2 1 - 4).toNat, by omega⟩
    have heq : feasibleJD (a.start 0 0) (a.start 0 1) (a.start 0 2) (a.start 1 0)
        (a.start 1 1) (a.start 1 2) (a.start 2 0) (a.start 2 1)
        = feasibleJD (0 + ((a.start 0 0 - 0).toNat : Int)) (3 + ((a.start 0 1 - 3).toNat : Int))
          (5 + ((a.start 0 2 - 5).toNat : Int)) (0 + ((a.start 1 0 - 0).toNat : Int))
          (2 + ((a.start 1 1 - 2).toNat : Int)) (3 + ((a.start 1 2 - 3).toNat : Int))
          (0 + ((a.start 2 0 - 0).toNat : Int)) (4 + ((a.start 2 1 - 4).toNat : Int)) := by
      congr 1 <;> omega
    rw [heq]
    exact he
  rw [hfeas] at hfalse
  exact absurd hfalse (by decide)


/-- Claim C1: for the hardcoded instance `jobs_data`, the minimum makespan over
all schedules satisfying the within-job precedence and per-machine no-overlap
constraints is exactly 11, and the solver reports 11 as the optimal makespan
(the minimum of the minimized `makespan` variable over the model's solutions). -/
theorem C1_optimal_makespan_is_11 :
    isOptimalMakespan jobs_data 11 ∧ solverReports jobs_data 11 := by
  refine ⟨⟨⟨optAssign, by decide, by decide⟩, lower_bound⟩, ⟨optAssign, by decide, rfl⟩, ?_⟩
  intro a ha
  have h1 := lower_bound a (validSchedule_of_satisfiesModel ha)
  have h2 := reported_makespan_eq ha
  omega

end JSSP
